import Mathlib

/-!
Verification development for the "Compile" block-based workspace editor.

The definitions below are shallow embeddings of the TypeScript source:
the block/page data model (`types.ts`), the page-level handlers of the
application component (`updateActivePageBlocks`, `handleDeletePage`),
the editor transformation handlers (`addBlock`, `removeBlock`,
`updateBlock`, the shorthand-trigger `handleInput` of both editors, the
Enter/Backspace key handlers), and the debounced persistence layer
(`PersistenceService.savePage`).  Definitions that embed code absent
from the provided sources are marked `Modelled from the spec:`.
-/

namespace Compile

/-- `BlockType` from the application's block model (the full enum with
Toggle/Code/Callout/Image/File/Page/PageLink variants). -/
inductive BlockType where
  | text
  | heading1
  | heading2
  | heading3
  | heading4
  | heading5
  | heading6
  | todo
  | bullet
  | number
  | quote
  | divider
  | toggle
  | code
  | callout
  | image
  | file
  | page
  | pageLink
deriving DecidableEq

/-- `Block` from the application's block model. -/
structure Block where
  id : String
  type : BlockType
  content : String
  checked : Option Bool := none
  isOpen : Option Bool := none
  language : Option String := none
  url : Option String := none
  caption : Option String := none
  pageId : Option String := none
deriving DecidableEq

/-- `Page` from the application's page model (fields relevant to the
tree and editor logic). -/
structure Page where
  id : String
  title : String := ""
  blocks : List Block := []
  parentId : Option String := none
  childIds : List String := []
  isFavorite : Bool := false
  isExpanded : Bool := false
deriving DecidableEq

/-- Whitespace in the sense of JavaScript's `String.prototype.trim`
(the characters that occur in this development: space, tab, newlines,
form/vertical feed, and the no-break space U+00A0). -/
def isJsWhitespace (c : Char) : Bool :=
  c = ' ' || c = '\t' || c = '\n' || c = '\r' ||
  c = '\u000B' || c = '\u000C' || c = '\u00A0'

/-- JavaScript `trim()` on the character list of a string. -/
def jsTrimList (l : List Char) : List Char :=
  ((l.dropWhile isJsWhitespace).reverse.dropWhile isJsWhitespace).reverse

/-- JavaScript `trim()`. -/
def jsTrim (s : String) : String :=
  ⟨jsTrimList s.data⟩

/-- One pass of `content.replace(/<[^>]*>?/gm, '')` from
`updateActivePageBlocks`: outside a tag, a `<` starts a tag (dropped);
inside a tag every character up to and including the next `>` is
dropped (an unterminated tag swallows the rest, matching the regex,
whose `>` is optional). -/
def stripTagsAux : Bool → List Char → List Char
  | _, [] => []
  | true, c :: rest =>
      if c = '>' then stripTagsAux false rest else stripTagsAux true rest
  | false, c :: rest =>
      if c = '<' then stripTagsAux true rest else c :: stripTagsAux false rest

/-- Markup stripping as performed by `updateActivePageBlocks`. -/
def stripTags (s : String) : String :=
  ⟨stripTagsAux false s.data⟩

/-- Title derivation from `updateActivePageBlocks`:
`newBlocks.find(b => b.type === BlockType.Heading1)` (the first
Heading-1 block anywhere in the sequence), then
`(firstH1 && firstH1.content.trim()) ? firstH1.content : 'Untitled'`,
then `rawTitle.replace(/<[^>]*>?/gm, '').trim() || 'Untitled'`. -/
def deriveTitle (blocks : List Block) : String :=
  let rawTitle :=
    match blocks.find? (fun b => b.type = BlockType.heading1) with
    | some b => if jsTrim b.content = "" then "Untitled" else b.content
    | none => "Untitled"
  let newTitle := jsTrim (stripTags rawTitle)
  if newTitle = "" then "Untitled" else newTitle

/-- JavaScript `Array.prototype.includes` on string lists. -/
def includes (ids : List String) (x : String) : Bool :=
  ids.any (fun i => i = x)

/-- `getIdsToDelete` from `handleDeletePage`: collect the page id and,
depth-first via `childIds`, every transitive descendant id.  The source
recursion is unbounded (it terminates because the page tree is
acyclic); the embedding adds a fuel argument, instantiated with
`pages.length + 1`, which is enough fuel on any acyclic collection. -/
def getIdsToDelete : Nat → String → List Page → List String
  | 0, _, _ => []
  | fuel + 1, pageId, allPages =>
    match allPages.find? (fun p => p.id = pageId) with
    | none => []
    | some page =>
      page.childIds.foldl
        (fun ids childId => ids ++ getIdsToDelete fuel childId allPages) [pageId]

/-- The page-collection update performed by `handleDeletePage`:
filter out the collected ids, then remove the deleted id from the
former parent's `childIds`.  (The source performs no pass over the
remaining pages' blocks.) -/
def handleDeletePage (pages : List Page) (pid : String) : List Page :=
  let idsToDelete := getIdsToDelete (pages.length + 1) pid pages
  let updatedPages := pages.filter (fun p => !(includes idsToDelete p.id))
  match pages.find? (fun p => p.id = pid) with
  | some pageToDelete =>
    match pageToDelete.parentId with
    | some parent =>
      updatedPages.map (fun p =>
        if p.id = parent then
          { p with childIds := p.childIds.filter (fun cid => cid ≠ pid) }
        else p)
    | none => updatedPages
  | none => updatedPages

/-- `textContent.endsWith(' ') || textContent.endsWith(' ')` from
both `handleInput` implementations. -/
def endsWithSpaceOrNbsp (s : String) : Bool :=
  match s.data.getLast? with
  | some c => c = ' ' || c = '\u00A0'
  | none => false

/-- The shorthand-trigger table of `handleInput` in
`BlockComponents/EditableBlock.tsx` (covers `#`..`#####`, and has a
backtick-fence case for Code; it has no `######` case). -/
def triggerTypeEditable (cleanText : String) : Option BlockType :=
  if cleanText = "#" then some BlockType.heading1
  else if cleanText = "##" then some BlockType.heading2
  else if cleanText = "###" then some BlockType.heading3
  else if cleanText = "####" then some BlockType.heading4
  else if cleanText = "#####" then some BlockType.heading5
  else if cleanText = ">" then some BlockType.quote
  else if cleanText = "-" || cleanText = "*" then some BlockType.bullet
  else if cleanText = "[]" then some BlockType.todo
  else if cleanText = "1." then some BlockType.number
  else if cleanText = "---" then some BlockType.divider
  else if cleanText = "```" then some BlockType.code
  else none

/-- The shorthand-trigger table of the inline `handleInput` in
`BlockEditor.tsx` (covers `#`..`######`; it has no Code case). -/
def triggerTypeLegacy (cleanText : String) : Option BlockType :=
  if cleanText = "#" then some BlockType.heading1
  else if cleanText = "##" then some BlockType.heading2
  else if cleanText = "###" then some BlockType.heading3
  else if cleanText = "####" then some BlockType.heading4
  else if cleanText = "#####" then some BlockType.heading5
  else if cleanText = "######" then some BlockType.heading6
  else if cleanText = ">" then some BlockType.quote
  else if cleanText = "-" || cleanText = "*" then some BlockType.bullet
  else if cleanText = "[]" then some BlockType.todo
  else if cleanText = "1." then some BlockType.number
  else if cleanText = "---" then some BlockType.divider
  else none

/-- The state update performed by `handleInput` in
`BlockComponents/EditableBlock.tsx` on the edited block, given the new
plain text (`innerText`) and the new markup (`innerHTML`): when the
text ends in a space or no-break space and trims to a trigger token,
convert the block's kind and clear its content; otherwise store the new
content. -/
def handleInputEditable (b : Block) (textContent newContent : String) : Block :=
  if endsWithSpaceOrNbsp textContent then
    match triggerTypeEditable (jsTrim textContent) with
    | some t => { b with type := t, content := "" }
    | none => { b with content := newContent }
  else { b with content := newContent }

/-- The state update performed by the inline `handleInput` in
`BlockEditor.tsx` (same control flow, legacy trigger table). -/
def handleInputLegacy (b : Block) (textContent newContent : String) : Block :=
  if endsWithSpaceOrNbsp textContent then
    match triggerTypeLegacy (jsTrim textContent) with
    | some t => { b with type := t, content := "" }
    | none => { b with content := newContent }
  else { b with content := newContent }

/-- The block created by `addBlock` in `BlockEditor.tsx`
(fresh id, requested kind, empty content, unchecked). -/
def mkNewBlock (newId : String) (ty : BlockType) : Block :=
  { id := newId, type := ty, content := "", checked := some false }

/-- `addBlock` from `BlockEditor.tsx`: `newBlocks.splice(index + 1, 0,
newBlock)` — insert the fresh block right after `index` (splice clamps
an out-of-range position to the end, as take/drop do here). -/
def addBlock (blocks : List Block) (index : Nat) (ty : BlockType)
    (newId : String) : List Block :=
  blocks.take (index + 1) ++ mkNewBlock newId ty :: blocks.drop (index + 1)

/-- Modelled from the spec: the configured hard maximum of the
capacity guard on block insertion (the modern block editor that owns
this guard is not among the provided sources). -/
def MAX_BLOCKS : Nat := 1800

/-- Modelled from the spec: the lower warning threshold of the
capacity guard. -/
def WARN_BLOCKS : Nat := 1500

/-- Result of a capacity-guarded insertion: the (possibly unchanged)
block sequence, the capacity-exceeded signal, and the non-blocking
warning state. -/
structure InsertResult where
  blocks : List Block
  capacityExceeded : Bool
  warning : Bool
deriving DecidableEq

/-- Modelled from the spec: the capacity-guarded insert of the modern
block editor (absent from the provided sources — only the unguarded
`addBlock` of the legacy editor is present).  Insertion is rejected
when the sequence is already at the maximum; the warning state holds
once the resulting length reaches the lower threshold. -/
def insertWithCapacity (blocks : List Block) (index : Nat)
    (ty : BlockType) (newId : String) : InsertResult :=
  if MAX_BLOCKS ≤ blocks.length then
    { blocks := blocks
      capacityExceeded := true
      warning := decide (WARN_BLOCKS ≤ blocks.length) }
  else
    let nb := addBlock blocks index ty newId
    { blocks := nb
      capacityExceeded := false
      warning := decide (WARN_BLOCKS ≤ nb.length) }

/-- The effect the Backspace branch of `handleKeyDown` in
`BlockComponents/EditableBlock.tsx` selects for the current block. -/
inductive BackspaceAction where
  | noop
  | deleteBlock
  | demoteToText
  | defaultEdit
deriving DecidableEq

/-- The Backspace branch of `handleKeyDown` in
`BlockComponents/EditableBlock.tsx`: the page-title block with empty
text is left untouched; Page/PageLink blocks are deleted outright;
an empty Divider is deleted; any other empty non-Text block is demoted
to Text; an empty Text block is deleted; otherwise the browser edits
the content. -/
def handleBackspace (isPageTitle : Bool) (b : Block)
    (textEmpty : Bool) : BackspaceAction :=
  if isPageTitle && textEmpty then BackspaceAction.noop
  else if b.type = BlockType.page || b.type = BlockType.pageLink then
    BackspaceAction.deleteBlock
  else if textEmpty then
    if b.type = BlockType.divider then BackspaceAction.deleteBlock
    else if b.type ≠ BlockType.text then BackspaceAction.demoteToText
    else BackspaceAction.deleteBlock
  else BackspaceAction.defaultEdit

/-- JavaScript `Array.prototype.findIndex` (with `none` for `-1`). -/
def findIndex (p : Block → Bool) : List Block → Option Nat
  | [] => none
  | b :: rest => if p b then some 0 else (findIndex p rest).map (· + 1)

/-- `removeBlock` from `BlockEditor.tsx`: a delete that would touch the
last remaining block is a no-op; otherwise the block is filtered out
and, when it was not the first block, focus moves to the block now at
the previous position.  Returns the new sequence and the id of the
block to focus. -/
def removeBlock (blocks : List Block) (targetId : String) :
    List Block × Option String :=
  if blocks.length ≤ 1 then (blocks, none)
  else
    let idx := findIndex (fun b => b.id = targetId) blocks
    let newBlocks := blocks.filter (fun b => b.id ≠ targetId)
    let focus :=
      match idx with
      | some index =>
        if 0 < index then (newBlocks.get? (index - 1)).map (fun b => b.id)
        else none
      | none => none
    (newBlocks, focus)

/-- `updateBlock` from `BlockEditor.tsx`: merge an update into the
block with the given id (`f` is the object-spread merge). -/
def updateBlock (blocks : List Block) (targetId : String)
    (f : Block → Block) : List Block :=
  blocks.map (fun b => if b.id = targetId then f b else b)

/-- The action the Enter branch of `handleKeyDown` in
`BlockComponents/EditableBlock.tsx` selects. -/
inductive EnterAction where
  | addNext
  | convertToDivider
  | noAction
deriving DecidableEq

/-- The Enter branch of `handleKeyDown` in
`BlockComponents/EditableBlock.tsx`: on non-shifted Enter with the
slash menu closed, a block whose plain text is exactly `---` is
converted in place to a Divider; otherwise a new block is requested
via `onAddNext`. -/
def handleEnterEditable (shift menuOpen : Bool) (textContent : String) :
    EnterAction :=
  if shift = false then
    if menuOpen = false then
      if textContent = "---" then EnterAction.convertToDivider
      else EnterAction.addNext
    else EnterAction.noAction
  else EnterAction.noAction

/-- The `onAddNext` wiring of the legacy editor (`BlockEditor.tsx`):
Bullet, Number and Todo blocks continue their own kind; every other
kind yields a Text block. -/
def nextBlockTypeLegacy : BlockType → BlockType
  | BlockType.bullet => BlockType.bullet
  | BlockType.number => BlockType.number
  | BlockType.todo => BlockType.todo
  | _ => BlockType.text

/-- Modelled from the spec: the `onAddNext` wiring of the modern block
editor (absent from the provided sources), which mirrors the current
kind for the list-like kinds Bullet, Number, Todo and Toggle and
defaults to Text for every other kind, including Code. -/
def nextBlockTypeModern : BlockType → BlockType
  | BlockType.bullet => BlockType.bullet
  | BlockType.number => BlockType.number
  | BlockType.todo => BlockType.todo
  | BlockType.toggle => BlockType.toggle
  | _ => BlockType.text

/-- A pending debounced write of `PersistenceService.savePage`: the
`setTimeout` handle, its debounce key, the page payload captured by the
timeout closure, and an identifier for the Promise the call returned
(whose `resolve` only the timeout callback can invoke — `savePage`
never calls `reject`). -/
structure PendingEntry where
  timerId : Nat
  key : String
  pageData : Page
  promiseId : Nat
deriving DecidableEq

/-- A write in flight: the timeout callback has started and called
`setDoc`, and is suspended on the `await`; it remembers its own timer
handle, its closure's debounce key and its promise. -/
structure InflightEntry where
  timerId : Nat
  key : String
  promiseId : Nat
deriving DecidableEq

/-- The state of `PersistenceService` relevant to `savePage`: the
`debounces` map from key to the scheduled timer, the set of timers
still armed (scheduled and neither cleared nor fired), the callbacks
suspended on an awaited remote write, the promises whose `resolve` has
run, and the remote write calls issued. -/
structure PSState where
  debounces : List (String × Nat)
  armed : List PendingEntry
  inflight : List InflightEntry
  resolvedPromises : List Nat
  writes : List (String × Page)
deriving DecidableEq

/-- `Map.get` on the `debounces` map. -/
def lookupKey (k : String) (m : List (String × Nat)) : Option Nat :=
  (m.find? (fun e => e.1 = k)).map (fun e => e.2)

/-- `Map.set` on the `debounces` map. -/
def setKey (k : String) (v : Nat) (m : List (String × Nat)) :
    List (String × Nat) :=
  m.filter (fun e => e.1 ≠ k) ++ [(k, v)]

/-- `Map.delete` on the `debounces` map. -/
def delKey (k : String) (m : List (String × Nat)) : List (String × Nat) :=
  m.filter (fun e => e.1 ≠ k)

/-- The scheduling part of `PersistenceService.savePage` (lines
193–216): if a timeout is already pending for `workspaceId_pageId`,
`clearTimeout` it (its promise is left unsettled); then arm a fresh
timeout holding the new payload and register it in `debounces`. -/
def savePageStep (s : PSState) (key : String) (pageData : Page)
    (timerId promiseId : Nat) : PSState :=
  let armedAfterClear :=
    match lookupKey key s.debounces with
    | some t => s.armed.filter (fun e => e.timerId ≠ t)
    | none => s.armed
  { s with
    debounces := setKey key timerId s.debounces
    armed := armedAfterClear ++ [⟨timerId, key, pageData, promiseId⟩] }

/-- The dispatch of a fired timeout of `savePage`: if the timer is
still armed, its callback starts, synchronously issues the `setDoc`
call with the captured payload, and suspends on the `await` (the
`debounces` map is not touched yet).  A cleared timer never fires. -/
def fireStep (s : PSState) (timerId : Nat) : PSState :=
  match s.armed.find? (fun e => e.timerId = timerId) with
  | none => s
  | some e =>
    { s with
      armed := s.armed.filter (fun x => x.timerId ≠ timerId)
      inflight := s.inflight ++ [⟨e.timerId, e.key, e.promiseId⟩]
      writes := s.writes ++ [(e.key, e.pageData)] }

/-- Successful resumption of a suspended callback: the awaited
`setDoc` returned, so the callback runs `this.debounces.delete(debounceKey)`
— deleting whatever entry the key holds at that moment, even one a
newer `savePage` registered meanwhile — and then resolves its
promise. -/
def completeOkStep (s : PSState) (timerId : Nat) : PSState :=
  match s.inflight.find? (fun e => e.timerId = timerId) with
  | none => s
  | some e =>
    { s with
      inflight := s.inflight.filter (fun x => x.timerId ≠ timerId)
      debounces := delKey e.key s.debounces
      resolvedPromises := s.resolvedPromises ++ [e.promiseId] }

/-- Failing resumption of a suspended callback: the awaited `setDoc`
rejected, so the catch branch logs and resolves the promise; the
`debounces` entry is not deleted on this path. -/
def completeErrStep (s : PSState) (timerId : Nat) : PSState :=
  match s.inflight.find? (fun e => e.timerId = timerId) with
  | none => s
  | some e =>
    { s with
      inflight := s.inflight.filter (fun x => x.timerId ≠ timerId)
      resolvedPromises := s.resolvedPromises ++ [e.promiseId] }

/-- An event of the single-threaded event loop that touches the
persistence service: a `savePage` call, a timer firing, or a suspended
callback resuming after its remote write succeeded or failed. -/
inductive PSEvent where
  | save (key : String) (pageData : Page) (timerId promiseId : Nat)
  | fire (timerId : Nat)
  | completeOk (timerId : Nat)
  | completeErr (timerId : Nat)
deriving DecidableEq

/-- Run a sequence of events against a persistence-service state. -/
def runEvents (s : PSState) : List PSEvent → PSState
  | [] => s
  | e :: rest =>
    match e with
    | PSEvent.save k p t q => runEvents (savePageStep s k p t q) rest
    | PSEvent.fire t => runEvents (fireStep s t) rest
    | PSEvent.completeOk t => runEvents (completeOkStep s t) rest
    | PSEvent.completeErr t => runEvents (completeErrStep s t) rest

/-- The persistence service before any `savePage` call. -/
def initialPSState : PSState :=
  { debounces := [], armed := [], inflight := [],
    resolvedPromises := [], writes := [] }

/-- The pending (armed) writes for one debounce key. -/
def pendingForKey (s : PSState) (k : String) : List PendingEntry :=
  s.armed.filter (fun e => e.key = k)

/-- The state after two `savePage` calls for the same key, the second
arriving before the first's timer fired: timer 1 / promise 11 were
superseded by timer 2 / promise 12. -/
def supersededState (k : String) (p1 p2 : Page) : PSState :=
  savePageStep (savePageStep initialPSState k p1 1 11) k p2 2 12

/-- An event is fresh with respect to promise id 11 when it is not a
`savePage` call reusing that promise id (the runtime hands every call
a fresh promise). -/
def avoidsPromise (pid : Nat) : PSEvent → Prop
  | PSEvent.save _ _ _ q => q ≠ pid
  | _ => True

instance (pid : Nat) (e : PSEvent) : Decidable (avoidsPromise pid e) := by
  cases e <;> simp [avoidsPromise] <;> infer_instance

/-- Modelled from the spec: the list-renumbering pass of the modern
block editor that supplies `indexInList` to
`BlockComponents/EditableBlock.tsx` (the supplier is absent from the
provided sources; the legacy editor hardcodes the numeral).  The
counter increments on each non-hidden Number block and resets to zero
on any non-hidden block of another kind; hidden blocks get no index
and leave the counter untouched.  A block is `(kind, hidden)`. -/
def renumberAux : Nat → List (BlockType × Bool) → List (Option Nat)
  | _, [] => []
  | counter, (ty, hidden) :: rest =>
    if hidden then none :: renumberAux counter rest
    else if ty = BlockType.number then
      some (counter + 1) :: renumberAux (counter + 1) rest
    else none :: renumberAux 0 rest

/-- Renumbering of a full block sequence (counter starts at zero). -/
def renumber (l : List (BlockType × Bool)) : List (Option Nat) :=
  renumberAux 0 l

/-- The counter value after scanning a prefix of blocks. -/
def counterAfter : Nat → List (BlockType × Bool) → Nat
  | c, [] => c
  | c, (ty, hidden) :: rest =>
    if hidden then counterAfter c rest
    else if ty = BlockType.number then counterAfter (c + 1) rest
    else counterAfter 0 rest

/-- Pairwise distinctness of the timer handles of the armed timeouts
(`setTimeout` never returns a live handle twice). -/
def distinctTimers : List PendingEntry → Bool
  | [] => true
  | e :: rest =>
    rest.all (fun x => x.timerId ≠ e.timerId) && distinctTimers rest

/-- The persistence-service invariant maintained by `savePage`: every
armed timeout is registered in `debounces` under its own key, and
armed timer handles are pairwise distinct. -/
def psInv (s : PSState) : Bool :=
  s.armed.all (fun e => lookupKey e.key s.debounces = some e.timerId) &&
    distinctTimers s.armed

/-! Concrete sample data used to instantiate the theorems below. -/

/-- A plain text block. -/
def sampleTextBlock : Block :=
  { id := "b1", type := BlockType.text, content := "intro" }

/-- A Heading-1 block whose content carries markup. -/
def sampleH1Markup : Block :=
  { id := "b2", type := BlockType.heading1, content := "<b>Groceries</b>" }

/-- A text block used as the edited block in trigger examples. -/
def sampleInputBlock : Block :=
  { id := "b", type := BlockType.text, content := "x" }

/-- A PageLink block referencing the page with id `P`. -/
def pageLinkToP : Block :=
  { id := "ql", type := BlockType.pageLink, content := "P", pageId := some "P" }

/-- A root page `P` with no children. -/
def cexTarget : Page := { id := "P", title := "P" }

/-- A page `Q` whose blocks reference page `P` through a PageLink. -/
def cexLinker : Page := { id := "Q", blocks := [pageLinkToP] }

/-- Cascade example: root `P` with children `C1`, `C2`. -/
def cascadeP : Page := { id := "P", title := "P", childIds := ["C1", "C2"] }

/-- Cascade example: `C1`, child of `P`, with child `G1`. -/
def cascadeC1 : Page := { id := "C1", parentId := some "P", childIds := ["G1"] }

/-- Cascade example: `C2`, child of `P`. -/
def cascadeC2 : Page := { id := "C2", parentId := some "P" }

/-- Cascade example: `G1`, grandchild of `P`. -/
def cascadeG1 : Page := { id := "G1", parentId := some "C1" }

/-- Cascade example: an unrelated page `Q`. -/
def cascadeQ : Page := { id := "Q", blocks := [pageLinkToP] }

/-- Parent-update example: root `R` with children `S`, `T`. -/
def treeR : Page := { id := "R", childIds := ["S", "T"] }

/-- Parent-update example: `S`, child of `R`. -/
def treeS : Page := { id := "S", parentId := some "R" }

/-- Parent-update example: `T`, child of `R`. -/
def treeT : Page := { id := "T", parentId := some "R" }

/-- A page payload for persistence examples. -/
def samplePageX : Page := { id := "x" }

/-- A second page payload for persistence examples. -/
def samplePageY : Page := { id := "y" }

/-- A third page payload for persistence examples. -/
def samplePageZ : Page := { id := "z" }

/-- The stale-delete interleaving of `savePage`: the first save's
timer fires and its callback suspends on the awaited remote write; a
second save for the same key then registers timer 2 (the clearTimeout
of the already-fired timer 1 is a no-op); the resumed callback's
`debounces.delete` erases timer 2's registration; a third save finds
no entry for the key and arms timer 3 without cancelling timer 2. -/
def staleDeleteTrace : List PSEvent :=
  [PSEvent.save "k" samplePageX 1 11,
   PSEvent.fire 1,
   PSEvent.save "k" samplePageY 2 12,
   PSEvent.completeOk 1,
   PSEvent.save "k" samplePageZ 3 13]

/-! Helper lemmas. -/

/-- `find?` skips a prefix none of whose elements satisfy the
predicate. -/
theorem find?_append_of_none {α : Type} (p : α → Bool) (l1 l2 : List α)
    (h : ∀ x ∈ l1, p x = false) : (l1 ++ l2).find? p = l2.find? p := by
  induction l1 with
  | nil => rfl
  | cons a t ih =>
    have ha : p a = false := h a (by simp)
    simp only [List.cons_append, List.find?_cons, ha]
    exact ih (fun x hx => h x (by simp [hx]))

/-- C1: counterexample to the claim that a page whose first block is
not a Heading-1 is titled "Untitled" even if a Heading-1 appears later:
`updateActivePageBlocks` finds the first Heading-1 anywhere, so a text
block followed by a Heading-1 "Groceries" yields title "Groceries". -/
theorem title_derivation_counterexample :
    deriveTitle [sampleTextBlock, { id := "b2", type := BlockType.heading1, content := "Groceries" }] = "Groceries" ∧
    deriveTitle [sampleTextBlock, { id := "b2", type := BlockType.heading1, content := "Groceries" }] ≠ "Untitled" := by
  decide

/-- C1 (amended): the page title is re-derived from the first
Heading-1 block anywhere in the sequence — not only from the first
block: its content is markup-stripped and trimmed; when no Heading-1
exists, or its content trims to empty, or strips to empty, the title
is "Untitled". -/
theorem title_derivation_amended (pre post l : List Block) (b : Block)
    (hpre : ∀ x ∈ pre, x.type ≠ BlockType.heading1)
    (hb : b.type = BlockType.heading1) :
    (deriveTitle (pre ++ b :: post) =
      if jsTrim b.content = "" then "Untitled"
      else if jsTrim (stripTags b.content) = "" then "Untitled"
      else jsTrim (stripTags b.content)) ∧
    ((∀ x ∈ l, x.type ≠ BlockType.heading1) → deriveTitle l = "Untitled") := by
  constructor
  · have hfind : (pre ++ b :: post).find?
        (fun x => x.type = BlockType.heading1) = some b := by
      rw [find?_append_of_none _ pre _ (fun x hx => by simp [hpre x hx])]
      simp [List.find?_cons, hb]
    by_cases hc : jsTrim b.content = ""
    · simp only [deriveTitle, hfind, hc, if_pos]
      decide
    · simp only [deriveTitle, hfind, if_neg hc]
  · intro h
    have hfind : l.find? (fun x => x.type = BlockType.heading1) = none := by
      rw [List.find?_eq_none]
      intro x hx
      simp [h x hx]
    simp only [deriveTitle, hfind]
    decide

/-- C1 (witness): instantiating the amended theorem on a page whose
first block is text and whose second block is a Heading-1 with markup
yields the stripped title. -/
theorem title_derivation_witness :
    deriveTitle [sampleTextBlock, sampleH1Markup] = "Groceries" := by
  have h := (title_derivation_amended [sampleTextBlock] [] [] sampleH1Markup
    (by decide) (by decide)).1
  simp only [List.singleton_append] at h
  rw [h]
  decide

/-- C2: counterexample to the claim that deleting a page strips or
reverts Page/PageLink blocks elsewhere that reference deleted ids:
deleting page `P` leaves page `Q` completely unchanged, its PageLink
block still pointing at the deleted id `P`. -/
theorem delete_page_counterexample :
    handleDeletePage [cexTarget, cexLinker] "P" = [cexLinker] ∧
    (handleDeletePage [cexTarget, cexLinker] "P").any
      (fun pg => pg.blocks.any (fun b =>
        (b.type = BlockType.pageLink) && (b.pageId = some "P"))) = true := by
  decide

/-- C2 (amended): `handleDeletePage` removes the page together with
the depth-first transitive descendant set collected via `childIds`,
and removes the deleted id from the former parent's `childIds`, but it
performs no pass over the remaining pages' blocks: every surviving
page keeps its blocks verbatim, so Page/PageLink blocks referencing
deleted ids are left dangling. -/
theorem delete_page_amended (pages : List Page) (pid : String) :
    (∀ q ∈ handleDeletePage pages pid,
        includes (getIdsToDelete (pages.length + 1) pid pages) q.id = false) ∧
    (∀ q ∈ handleDeletePage pages pid,
        ∃ p ∈ pages, p.id = q.id ∧ q.blocks = p.blocks) ∧
    (∀ (pd : Page) (par : String) (p : Page),
        pages.find? (fun x => x.id = pid) = some pd →
        pd.parentId = some par →
        p ∈ pages →
        includes (getIdsToDelete (pages.length + 1) pid pages) p.id = false →
        p.id = par →
        { p with childIds := p.childIds.filter (fun cid => cid ≠ pid) }
          ∈ handleDeletePage pages pid) ∧
    (getIdsToDelete 5 "P" [cascadeP, cascadeC1, cascadeC2, cascadeG1, cascadeQ]
        = ["P", "C1", "G1", "C2"]) ∧
    ((handleDeletePage [cascadeP, cascadeC1, cascadeC2, cascadeG1, cascadeQ] "P").map
        (fun p => p.id) = ["Q"]) := by
  refine ⟨?_, ?_, ?_, by decide, by decide⟩
  · intro q hq
    simp only [handleDeletePage] at hq
    cases hfind : pages.find? (fun x => x.id = pid) with
    | none =>
      simp only [hfind] at hq
      have := (List.mem_filter.mp hq).2
      simpa using this
    | some pd =>
      simp only [hfind] at hq
      cases hpar : pd.parentId with
      | none =>
        simp only [hpar] at hq
        have := (List.mem_filter.mp hq).2
        simpa using this
      | some par =>
        simp only [hpar] at hq
        obtain ⟨p, hp, hfq⟩ := List.mem_map.mp hq
        have hinc := (List.mem_filter.mp hp).2
        have hid : q.id = p.id := by
          by_cases hpp : p.id = par
          · rw [if_pos hpp] at hfq
            rw [← hfq]
          · rw [if_neg hpp] at hfq
            rw [← hfq]
        rw [hid]
        simpa using hinc
  · intro q hq
    simp only [handleDeletePage] at hq
    cases hfind : pages.find? (fun x => x.id = pid) with
    | none =>
      simp only [hfind] at hq
      have hp := (List.mem_filter.mp hq).1
      exact ⟨q, hp, rfl, rfl⟩
    | some pd =>
      simp only [hfind] at hq
      cases hpar : pd.parentId with
      | none =>
        simp only [hpar] at hq
        have hp := (List.mem_filter.mp hq).1
        exact ⟨q, hp, rfl, rfl⟩
      | some par =>
        simp only [hpar] at hq
        obtain ⟨p, hp, hfq⟩ := List.mem_map.mp hq
        refine ⟨p, (List.mem_filter.mp hp).1, ?_, ?_⟩
        · by_cases hpp : p.id = par
          · rw [if_pos hpp] at hfq
            rw [← hfq]
          · rw [if_neg hpp] at hfq
            rw [← hfq]
        · by_cases hpp : p.id = par
          · rw [if_pos hpp] at hfq
            rw [← hfq]
          · rw [if_neg hpp] at hfq
            rw [← hfq]
  · intro pd par p hfind hpar hp hninc hpid
    simp only [handleDeletePage, hfind, hpar]
    refine List.mem_map.mpr ⟨p, List.mem_filter.mpr ⟨hp, by simp [hninc]⟩, ?_⟩
    rw [if_pos hpid]

/-- C2 (witness): deleting page `S` from the forest `[R, S, T]` (where
`S` and `T` are children of `R`) leaves `R` present with `S` removed
from its `childIds`. -/
theorem delete_page_witness :
    { treeR with childIds := treeR.childIds.filter (fun cid => cid ≠ "S") }
      ∈ handleDeletePage [treeR, treeS, treeT] "S" := by
  exact (delete_page_amended [treeR, treeS, treeT] "S").2.2.1 treeS "R" treeR
    (by decide) (by decide) (by decide) (by decide) (by decide)

/-- A firing trigger in the `BlockComponents/EditableBlock.tsx`
handler converts the block and clears its content. -/
theorem handleInputEditable_fires (b : Block) (tc nc : String) (t : BlockType)
    (hEnds : endsWithSpaceOrNbsp tc = true)
    (ht : triggerTypeEditable (jsTrim tc) = some t) :
    handleInputEditable b tc nc = { b with type := t, content := "" } := by
  simp [handleInputEditable, hEnds, ht]

/-- A non-matching token in the `BlockComponents/EditableBlock.tsx`
handler leaves the kind alone and stores the new content. -/
theorem handleInputEditable_noFire (b : Block) (tc nc : String)
    (hEnds : endsWithSpaceOrNbsp tc = true)
    (ht : triggerTypeEditable (jsTrim tc) = none) :
    handleInputEditable b tc nc = { b with content := nc } := by
  simp [handleInputEditable, hEnds, ht]

/-- Without a trailing space/nbsp the `BlockComponents` handler only
stores content. -/
theorem handleInputEditable_noSpace (b : Block) (tc nc : String)
    (hEnds : endsWithSpaceOrNbsp tc = false) :
    handleInputEditable b tc nc = { b with content := nc } := by
  simp [handleInputEditable, hEnds]

/-- A firing trigger in the legacy `BlockEditor.tsx` handler converts
the block and clears its content. -/
theorem handleInputLegacy_fires (b : Block) (tc nc : String) (t : BlockType)
    (hEnds : endsWithSpaceOrNbsp tc = true)
    (ht : triggerTypeLegacy (jsTrim tc) = some t) :
    handleInputLegacy b tc nc = { b with type := t, content := "" } := by
  simp [handleInputLegacy, hEnds, ht]

/-- A non-matching token in the legacy handler stores content only. -/
theorem handleInputLegacy_noFire (b : Block) (tc nc : String)
    (hEnds : endsWithSpaceOrNbsp tc = true)
    (ht : triggerTypeLegacy (jsTrim tc) = none) :
    handleInputLegacy b tc nc = { b with content := nc } := by
  simp [handleInputLegacy, hEnds, ht]

/-- Without a trailing space/nbsp the legacy handler only stores
content. -/
theorem handleInputLegacy_noSpace (b : Block) (tc nc : String)
    (hEnds : endsWithSpaceOrNbsp tc = false) :
    handleInputLegacy b tc nc = { b with content := nc } := by
  simp [handleInputLegacy, hEnds]

/-- C3: counterexample to the claimed unified trigger table: the
`BlockComponents/EditableBlock.tsx` handler has no `######` case, so
typing `###### ` does not convert to Heading-6 (the block stays Text);
dually the legacy `BlockEditor.tsx` handler has no backtick-fence
case, so the fence token does not convert to Code there. -/
theorem shorthand_trigger_counterexample :
    handleInputEditable sampleInputBlock "###### " "###### "
      = { sampleInputBlock with content := "###### " } ∧
    (handleInputEditable sampleInputBlock "###### " "###### ").type
      = BlockType.text ∧
    handleInputLegacy sampleInputBlock "``` " "``` "
      = { sampleInputBlock with content := "``` " } ∧
    (handleInputLegacy sampleInputBlock "``` " "``` ").type
      = BlockType.text := by
  decide

/-- C3 (amended): after a trailing space or no-break space, a block
whose plain text trims to a trigger token is converted in place with
cleared content, but the two handlers implement different tables: both
convert `#`..`#####`, `>`, `-`/`*`, `[]`, `1.` and `---`; only the
legacy `BlockEditor.tsx` handler converts `######` to Heading-6, and
only the `BlockComponents/EditableBlock.tsx` handler converts the
backtick fence to Code; any other text, or text without the trailing
space/nbsp, leaves the kind unchanged and stores the new content. -/
theorem shorthand_trigger_amended (b : Block) (tc nc : String) :
    (endsWithSpaceOrNbsp tc = true →
      ((jsTrim tc = "#" →
          handleInputEditable b tc nc = { b with type := BlockType.heading1, content := "" } ∧
          handleInputLegacy b tc nc = { b with type := BlockType.heading1, content := "" }) ∧
       (jsTrim tc = "##" →
          handleInputEditable b tc nc = { b with type := BlockType.heading2, content := "" } ∧
          handleInputLegacy b tc nc = { b with type := BlockType.heading2, content := "" }) ∧
       (jsTrim tc = "###" →
          handleInputEditable b tc nc = { b with type := BlockType.heading3, content := "" } ∧
          handleInputLegacy b tc nc = { b with type := BlockType.heading3, content := "" }) ∧
       (jsTrim tc = "####" →
          handleInputEditable b tc nc = { b with type := BlockType.heading4, content := "" } ∧
          handleInputLegacy b tc nc = { b with type := BlockType.heading4, content := "" }) ∧
       (jsTrim tc = "#####" →
          handleInputEditable b tc nc = { b with type := BlockType.heading5, content := "" } ∧
          handleInputLegacy b tc nc = { b with type := BlockType.heading5, content := "" }) ∧
       (jsTrim tc = "######" →
          handleInputLegacy b tc nc = { b with type := BlockType.heading6, content := "" } ∧
          handleInputEditable b tc nc = { b with content := nc }) ∧
       (jsTrim tc = "```" →
          handleInputEditable b tc nc = { b with type := BlockType.code, content := "" } ∧
          handleInputLegacy b tc nc = { b with content := nc }) ∧
       (jsTrim tc = ">" →
          handleInputEditable b tc nc = { b with type := BlockType.quote, content := "" } ∧
          handleInputLegacy b tc nc = { b with type := BlockType.quote, content := "" }) ∧
       (jsTrim tc = "-" →
          handleInputEditable b tc nc = { b with type := BlockType.bullet, content := "" } ∧
          handleInputLegacy b tc nc = { b with type := BlockType.bullet, content := "" }) ∧
       (jsTrim tc = "*" →
          handleInputEditable b tc nc = { b with type := BlockType.bullet, content := "" } ∧
          handleInputLegacy b tc nc = { b with type := BlockType.bullet, content := "" }) ∧
       (jsTrim tc = "[]" →
          handleInputEditable b tc nc = { b with type := BlockType.todo, content := "" } ∧
          handleInputLegacy b tc nc = { b with type := BlockType.todo, content := "" }) ∧
       (jsTrim tc = "1." →
          handleInputEditable b tc nc = { b with type := BlockType.number, content := "" } ∧
          handleInputLegacy b tc nc = { b with type := BlockType.number, content := "" }) ∧
       (jsTrim tc = "---" →
          handleInputEditable b tc nc = { b with type := BlockType.divider, content := "" } ∧
          handleInputLegacy b tc nc = { b with type := BlockType.divider, content := "" }) ∧
       (triggerTypeEditable (jsTrim tc) = none →
          handleInputEditable b tc nc = { b with content := nc }) ∧
       (triggerTypeLegacy (jsTrim tc) = none →
          handleInputLegacy b tc nc = { b with content := nc }))) ∧
    (endsWithSpaceOrNbsp tc = false →
      handleInputEditable b tc nc = { b with content := nc } ∧
      handleInputLegacy b tc nc = { b with content := nc }) := by
  constructor
  · intro hEnds
    refine ⟨?_, ?_, ?_, ?_, ?_, ?_, ?_, ?_, ?_, ?_, ?_, ?_, ?_, ?_, ?_⟩
    · intro h
      exact ⟨handleInputEditable_fires b tc nc _ hEnds (by rw [h]; decide),
             handleInputLegacy_fires b tc nc _ hEnds (by rw [h]; decide)⟩
    · intro h
      exact ⟨handleInputEditable_fires b tc nc _ hEnds (by rw [h]; decide),
             handleInputLegacy_fires b tc nc _ hEnds (by rw [h]; decide)⟩
    · intro h
      exact ⟨handleInputEditable_fires b tc nc _ hEnds (by rw [h]; decide),
             handleInputLegacy_fires b tc nc _ hEnds (by rw [h]; decide)⟩
    · intro h
      exact ⟨handleInputEditable_fires b tc nc _ hEnds (by rw [h]; decide),
             handleInputLegacy_fires b tc nc _ hEnds (by rw [h]; decide)⟩
    · intro h
      exact ⟨handleInputEditable_fires b tc nc _ hEnds (by rw [h]; decide),
             handleInputLegacy_fires b tc nc _ hEnds (by rw [h]; decide)⟩
    · intro h
      exact ⟨handleInputLegacy_fires b tc nc _ hEnds (by rw [h]; decide),
             handleInputEditable_noFire b tc nc hEnds (by rw [h]; decide)⟩
    · intro h
      exact ⟨handleInputEditable_fires b tc nc _ hEnds (by rw [h]; decide),
             handleInputLegacy_noFire b tc nc hEnds (by rw [h]; decide)⟩
    · intro h
      exact ⟨handleInputEditable_fires b tc nc _ hEnds (by rw [h]; decide),
             handleInputLegacy_fires b tc nc _ hEnds (by rw [h]; decide)⟩
    · intro h
      exact ⟨handleInputEditable_fires b tc nc _ hEnds (by rw [h]; decide),
             handleInputLegacy_fires b tc nc _ hEnds (by rw [h]; decide)⟩
    · intro h
      exact ⟨handleInputEditable_fires b tc nc _ hEnds (by rw [h]; decide),
             handleInputLegacy_fires b tc nc _ hEnds (by rw [h]; decide)⟩
    · intro h
      exact ⟨handleInputEditable_fires b tc nc _ hEnds (by rw [h]; decide),
             handleInputLegacy_fires b tc nc _ hEnds (by rw [h]; decide)⟩
    · intro h
      exact ⟨handleInputEditable_fires b tc nc _ hEnds (by rw [h]; decide),
             handleInputLegacy_fires b tc nc _ hEnds (by rw [h]; decide)⟩
    · intro h
      exact ⟨handleInputEditable_fires b tc nc _ hEnds (by rw [h]; decide),
             handleInputLegacy_fires b tc nc _ hEnds (by rw [h]; decide)⟩
    · intro h
      exact handleInputEditable_noFire b tc nc hEnds h
    · intro h
      exact handleInputLegacy_noFire b tc nc hEnds h
  · intro hEnds
    exact ⟨handleInputEditable_noSpace b tc nc hEnds,
           handleInputLegacy_noSpace b tc nc hEnds⟩

/-- C3 (witness): instantiating the amended theorem: typing `# ` in a
text block converts it to Heading-1 with cleared content in both
handlers. -/
theorem shorthand_trigger_witness :
    handleInputEditable sampleInputBlock "# " "# "
      = { sampleInputBlock with type := BlockType.heading1, content := "" } ∧
    handleInputLegacy sampleInputBlock "# " "# "
      = { sampleInputBlock with type := BlockType.heading1, content := "" } :=
  ((shorthand_trigger_amended sampleInputBlock "# " "# ").1 (by decide)).1 (by decide)

/-- The element spliced in after a prefix sits at the prefix's
length. -/
theorem splice_get {α : Type} (l1 l2 : List α) (a : α) :
    (l1 ++ a :: l2).get? l1.length = some a := by
  induction l1 with
  | nil => rfl
  | cons h t ih =>
    rw [List.cons_append, List.length_cons, List.get?_cons_succ]
    exact ih

/-- Taking up to the splice point returns the unchanged prefix. -/
theorem splice_take {α : Type} (l1 l2 : List α) (a : α) :
    (l1 ++ a :: l2).take l1.length = l1 := by
  induction l1 with
  | nil => rfl
  | cons h t ih => simp [ih]

/-- Dropping past the splice point returns the unchanged suffix. -/
theorem splice_drop {α : Type} (l1 l2 : List α) (a : α) :
    (l1 ++ a :: l2).drop (l1.length + 1) = l2 := by
  induction l1 with
  | nil => rfl
  | cons h t ih =>
    rw [List.cons_append, List.length_cons, List.drop_succ_cons]
    exact ih

/-- C4: for a valid index, the capacity-guarded insert produces a
sequence one longer with the fresh empty block at position `i + 1`,
prefix and suffix untouched; at or above the maximum (1800) the
sequence is returned unchanged with the capacity-exceeded signal; the
non-blocking warning state holds exactly when the resulting length has
reached the lower threshold (1500). -/
theorem insert_capacity_guard (blocks : List Block) (i : Nat)
    (ty : BlockType) (nid : String) (hi : i < blocks.length) :
    (blocks.length < MAX_BLOCKS →
      (insertWithCapacity blocks i ty nid).capacityExceeded = false ∧
      (insertWithCapacity blocks i ty nid).blocks =
        blocks.take (i + 1) ++ mkNewBlock nid ty :: blocks.drop (i + 1) ∧
      (insertWithCapacity blocks i ty nid).blocks.length = blocks.length + 1 ∧
      (insertWithCapacity blocks i ty nid).blocks.get? (i + 1) = some (mkNewBlock nid ty) ∧
      (insertWithCapacity blocks i ty nid).blocks.take (i + 1) = blocks.take (i + 1) ∧
      (insertWithCapacity blocks i ty nid).blocks.drop (i + 2) = blocks.drop (i + 1)) ∧
    (MAX_BLOCKS ≤ blocks.length →
      (insertWithCapacity blocks i ty nid).blocks = blocks ∧
      (insertWithCapacity blocks i ty nid).capacityExceeded = true) ∧
    ((insertWithCapacity blocks i ty nid).warning = true ↔
      WARN_BLOCKS ≤ (insertWithCapacity blocks i ty nid).blocks.length) := by
  have hlen : (blocks.take (i + 1)).length = i + 1 := by
    rw [List.length_take]
    omega
  refine ⟨?_, ?_, ?_⟩
  · intro hlt
    have hcond : ¬ MAX_BLOCKS ≤ blocks.length := by omega
    constructor
    · simp [insertWithCapacity, hcond]
    constructor
    · simp [insertWithCapacity, hcond, addBlock]
    constructor
    · simp only [insertWithCapacity, if_neg hcond, addBlock]
      simp
      omega
    constructor
    · simp only [insertWithCapacity, if_neg hcond, addBlock]
      have key := splice_get (blocks.take (i + 1)) (blocks.drop (i + 1)) (mkNewBlock nid ty)
      rw [hlen] at key
      exact key
    constructor
    · simp only [insertWithCapacity, if_neg hcond, addBlock]
      have key := splice_take (blocks.take (i + 1)) (blocks.drop (i + 1)) (mkNewBlock nid ty)
      rw [hlen] at key
      exact key
    · simp only [insertWithCapacity, if_neg hcond, addBlock]
      have key := splice_drop (blocks.take (i + 1)) (blocks.drop (i + 1)) (mkNewBlock nid ty)
      rw [hlen] at key
      exact key
  · intro hge
    simp [insertWithCapacity, hge]
  · by_cases hcond : MAX_BLOCKS ≤ blocks.length
    · simp [insertWithCapacity, hcond]
    · simp [insertWithCapacity, hcond]

/-- C4 (witness): inserting a Todo block after index 0 of a
two-element sequence yields a three-element sequence with the fresh
block at position 1 and no capacity signal. -/
theorem insert_capacity_guard_witness :
    (insertWithCapacity [sampleTextBlock, sampleH1Markup] 0 BlockType.todo "n").blocks.length = 3 ∧
    (insertWithCapacity [sampleTextBlock, sampleH1Markup] 0 BlockType.todo "n").blocks.get? 1
      = some (mkNewBlock "n" BlockType.todo) ∧
    (insertWithCapacity [sampleTextBlock, sampleH1Markup] 0 BlockType.todo "n").capacityExceeded = false := by
  have h := insert_capacity_guard [sampleTextBlock, sampleH1Markup] 0 BlockType.todo "n" (by decide)
  have h1 := h.1 (by decide)
  exact ⟨h1.2.2.1, h1.2.2.2.1, h1.1⟩

/-- `findIndex` locates the first satisfier after a prefix of
non-satisfiers. -/
theorem findIndex_append_cons (p : Block → Bool) (pre : List Block)
    (x : Block) (post : List Block)
    (hpre : ∀ y ∈ pre, p y = false) (hx : p x = true) :
    findIndex p (pre ++ x :: post) = some pre.length := by
  induction pre with
  | nil => simp [findIndex, hx]
  | cons a t ih =>
    have ha : p a = false := hpre a (by simp)
    simp only [List.cons_append, findIndex, ha, Bool.false_eq_true, if_false,
      List.length_cons, List.append_eq]
    rw [ih (fun y hy => hpre y (by simp [hy]))]
    rfl

/-- C5: counterexample to the claim that backspace on any empty
non-Text block demotes it to Text: an empty Divider block is deleted
outright by the `BlockComponents/EditableBlock.tsx` handler. -/
theorem backspace_empty_counterexample :
    handleBackspace false { id := "d", type := BlockType.divider, content := "" } true
      = BackspaceAction.deleteBlock ∧
    handleBackspace false { id := "d", type := BlockType.divider, content := "" } true
      ≠ BackspaceAction.demoteToText := by
  decide

/-- C5 (amended): backspace on an empty block demotes a non-Text kind
to Text (content field untouched) only when the kind is not Divider,
Page or PageLink: an empty Divider is deleted, Page and PageLink
blocks are deleted even when non-empty, an empty Text block is
deleted (with focus moving to the block before it), and the
page-title block with empty content is left exactly as it is. -/
theorem backspace_empty_amended (b : Block) (e : Bool) :
    (handleBackspace true b true = BackspaceAction.noop) ∧
    (b.type = BlockType.page ∨ b.type = BlockType.pageLink →
      handleBackspace false b e = BackspaceAction.deleteBlock) ∧
    (b.type = BlockType.divider →
      handleBackspace false b true = BackspaceAction.deleteBlock) ∧
    (b.type ≠ BlockType.text → b.type ≠ BlockType.divider →
      b.type ≠ BlockType.page → b.type ≠ BlockType.pageLink →
      handleBackspace false b true = BackspaceAction.demoteToText) ∧
    (b.type = BlockType.text →
      handleBackspace false b true = BackspaceAction.deleteBlock) ∧
    (b.type ≠ BlockType.page → b.type ≠ BlockType.pageLink →
      handleBackspace false b false = BackspaceAction.defaultEdit) ∧
    (∀ (pre : List Block) (x : Block) (post : List Block) (tid : String),
      (∀ y ∈ pre, y.id ≠ tid) → x.id = tid → pre ≠ [] →
      (removeBlock (pre ++ x :: post) tid).2 =
        (pre.get? (pre.length - 1)).map (fun bb => bb.id)) := by
  refine ⟨?_, ?_, ?_, ?_, ?_, ?_, ?_⟩
  · simp [handleBackspace]
  · intro h
    cases hb : b.type <;> simp_all [handleBackspace]
  · intro h
    simp [handleBackspace, h]
  · intro h1 h2 h3 h4
    cases hb : b.type <;> simp_all [handleBackspace]
  · intro h
    simp [handleBackspace, h]
  · intro h3 h4
    cases hb : b.type <;> simp_all [handleBackspace]
  · intro pre x post tid hpre hx hne
    have hfi : findIndex (fun bb => bb.id = tid) (pre ++ x :: post)
        = some pre.length :=
      findIndex_append_cons _ pre x post
        (fun y hy => by simp [hpre y hy]) (by simp [hx])
    have hlen2 : ¬ ((pre ++ x :: post).length ≤ 1) := by
      cases pre with
      | nil => exact absurd rfl hne
      | cons a t => simp only [List.cons_append, List.length_cons, List.length_append]; omega
    have hprelen : 0 < pre.length := by
      cases pre with
      | nil => exact absurd rfl hne
      | cons a t => simp
    have hfilter : (pre ++ x :: post).filter (fun bb => bb.id ≠ tid)
        = pre ++ post.filter (fun bb => bb.id ≠ tid) := by
      rw [List.filter_append]
      congr 1
      · exact List.filter_eq_self.mpr (fun y hy => by simp [hpre y hy])
      · rw [List.filter_cons_of_neg (by simp [hx])]
    simp only [removeBlock, if_neg hlen2, hfi, if_pos hprelen, hfilter]
    have hget : (pre ++ post.filter (fun bb => bb.id ≠ tid)).get? (pre.length - 1)
        = pre.get? (pre.length - 1) := by
      rw [List.get?_eq_getElem?, List.get?_eq_getElem?,
        List.getElem?_append_left (by omega)]
    rw [hget]

/-- C5 (witness): instantiation of the amended theorem: backspace on
an empty Quote block demotes it to Text, and removing the middle block
of a three-block page focuses the first block. -/
theorem backspace_empty_witness :
    handleBackspace false { id := "q", type := BlockType.quote, content := "" } true
      = BackspaceAction.demoteToText ∧
    (removeBlock [sampleTextBlock, { id := "m", type := BlockType.text, content := "mid" }, sampleH1Markup] "m").2
      = some "b1" := by
  constructor
  · exact (backspace_empty_amended
      { id := "q", type := BlockType.quote, content := "" } true).2.2.2.1
      (by decide) (by decide) (by decide) (by decide)
  · have h := (backspace_empty_amended sampleTextBlock true).2.2.2.2.2.2
      [sampleTextBlock] { id := "m", type := BlockType.text, content := "mid" }
      [sampleH1Markup] "m" (by decide) (by decide) (by decide)
    simpa using h

/-- C6: counterexample to the claim that a non-shifted Enter always
inserts a new block after the current one: when the block's plain text
is exactly `---`, the `BlockComponents/EditableBlock.tsx` handler
converts the block in place to a Divider and inserts nothing. -/
theorem enter_split_counterexample :
    handleEnterEditable false false "---" = EnterAction.convertToDivider ∧
    handleEnterEditable false false "---" ≠ EnterAction.addNext := by
  decide

/-- C6 (amended): non-shifted Enter with the slash menu closed inserts
a new block after the current one except when the plain text is
exactly `---`, which converts the block in place to a Divider; when a
block is inserted, the modern wiring mirrors the current kind exactly
for the list-like kinds Bullet, Number, Todo and Toggle and yields
Text otherwise (Code never auto-continues); the in-source legacy
wiring mirrors only Bullet, Number and Todo. -/
theorem enter_split_amended (text : String) (t : BlockType) :
    (text ≠ "---" → handleEnterEditable false false text = EnterAction.addNext) ∧
    (handleEnterEditable false false "---" = EnterAction.convertToDivider) ∧
    (handleEnterEditable true false text = EnterAction.noAction) ∧
    (handleEnterEditable false true text = EnterAction.noAction) ∧
    (nextBlockTypeModern t =
      if t = BlockType.bullet ∨ t = BlockType.number ∨
         t = BlockType.todo ∨ t = BlockType.toggle
      then t else BlockType.text) ∧
    (nextBlockTypeModern BlockType.code = BlockType.text) ∧
    (nextBlockTypeLegacy t =
      if t = BlockType.bullet ∨ t = BlockType.number ∨ t = BlockType.todo
      then t else BlockType.text) := by
  refine ⟨?_, by decide, by simp [handleEnterEditable], by simp [handleEnterEditable], ?_, by decide, ?_⟩
  · intro h
    simp [handleEnterEditable, h]
  · cases t <;> decide
  · cases t <;> decide

/-- C6 (witness): instantiation of the amended theorem: Enter on a
block whose text is not `---` requests an insertion, and a Bullet
block continues as a Bullet under the modern wiring. -/
theorem enter_split_witness :
    handleEnterEditable false false "hello" = EnterAction.addNext ∧
    nextBlockTypeModern BlockType.bullet = BlockType.bullet := by
  constructor
  · exact (enter_split_amended "hello" BlockType.bullet).1 (by decide)
  · have h := (enter_split_amended "hello" BlockType.bullet).2.2.2.2.1
    simpa using h

/-- At most one block is removed when ids are unique, so filtering by
id removes at most one element. -/
theorem length_filter_ne_id (l : List Block) (tid : String)
    (h : (l.map Block.id).Nodup) :
    l.length - 1 ≤ (l.filter (fun b => b.id ≠ tid)).length := by
  induction l with
  | nil => simp
  | cons b rest ih =>
    have hb : b.id ∉ rest.map Block.id := (List.nodup_cons.mp (by simpa using h)).1
    have hrest : (rest.map Block.id).Nodup := (List.nodup_cons.mp (by simpa using h)).2
    by_cases hid : b.id = tid
    · have hall : ∀ y ∈ rest, y.id ≠ tid := by
        intro y hy hcon
        have hmem : y.id ∈ rest.map Block.id := List.mem_map_of_mem Block.id hy
        rw [hcon, ← hid] at hmem
        exact hb hmem
      rw [List.filter_cons_of_neg (by simp [hid])]
      rw [List.filter_eq_self.mpr (fun y hy => by simp [hall y hy])]
      simp
    · rw [List.filter_cons_of_pos (by simp [hid])]
      have := ih hrest
      simp only [List.length_cons]
      omega

/-- C9: the block sequence of a page is never emptied by the editor
operations: a delete on a sequence of one block is a no-op returning
the sequence unchanged, a delete on a longer sequence with unique ids
leaves at least one block, and insert and in-place convert never
shrink the sequence to empty. -/
theorem blocks_never_empty (blocks : List Block) (tid : String) (i : Nat)
    (ty : BlockType) (nid : String) (f : Block → Block) :
    (blocks.length ≤ 1 → removeBlock blocks tid = (blocks, none)) ∧
    (blocks ≠ [] → (blocks.map Block.id).Nodup → (removeBlock blocks tid).1 ≠ []) ∧
    (addBlock blocks i ty nid ≠ []) ∧
    (blocks ≠ [] → updateBlock blocks tid f ≠ []) := by
  refine ⟨?_, ?_, ?_, ?_⟩
  · intro h
    simp [removeBlock, h]
  · intro hne hnodup
    by_cases hlen : blocks.length ≤ 1
    · simp [removeBlock, hlen, hne]
    · have h2 : 2 ≤ blocks.length := by omega
      have hfil := length_filter_ne_id blocks tid hnodup
      simp only [removeBlock, if_neg hlen]
      intro hcon
      rw [hcon] at hfil
      simp at hfil
      omega
  · simp [addBlock]
  · intro hne
    simp [updateBlock, hne]

/-- C9 (witness): instantiation: deleting from a single-block page is
a no-op, and deleting one of two blocks with distinct ids leaves a
non-empty page. -/
theorem blocks_never_empty_witness :
    removeBlock [sampleTextBlock] "b1" = ([sampleTextBlock], none) ∧
    (removeBlock [sampleTextBlock, sampleH1Markup] "b1").1 ≠ [] := by
  constructor
  · exact (blocks_never_empty [sampleTextBlock] "b1" 0 BlockType.text "n" id).1 (by decide)
  · exact (blocks_never_empty [sampleTextBlock, sampleH1Markup] "b1" 0 BlockType.text "n" id).2.1
      (by decide) (by decide)

/-- Renumbering distributes over append, threading the counter. -/
theorem renumberAux_append (c : Nat) (xs ys : List (BlockType × Bool)) :
    renumberAux c (xs ++ ys) = renumberAux c xs ++ renumberAux (counterAfter c xs) ys := by
  induction xs generalizing c with
  | nil => rfl
  | cons hd tl ih =>
    obtain ⟨ty, hidden⟩ := hd
    cases hidden
    all_goals by_cases hn : ty = BlockType.number
    all_goals simp [renumberAux, counterAfter, hn, ih, List.append_eq]

/-- C8: Number blocks are indexed by a running counter over the
visibility-annotated sequence: `[Number, Number, Text, Number]` (all
visible) renders `[1, 2, _, 1]`; a non-hidden non-Number block resets
the counter so the next visible Number restarts at 1; a hidden block
occupies a slot with no index and neither consumes nor resets the
counter — inserting it anywhere leaves every other index unchanged. -/
theorem list_renumbering (c : Nat) (xs ys : List (BlockType × Bool))
    (ty : BlockType) :
    (renumber [(BlockType.number, false), (BlockType.number, false),
               (BlockType.text, false), (BlockType.number, false)]
       = [some 1, some 2, none, some 1]) ∧
    (renumberAux c (xs ++ ys)
       = renumberAux c xs ++ renumberAux (counterAfter c xs) ys) ∧
    (renumberAux c (xs ++ (ty, true) :: ys)
       = renumberAux c xs ++ none :: renumberAux (counterAfter c xs) ys) ∧
    (ty ≠ BlockType.number →
       renumberAux c ((ty, false) :: ys) = none :: renumberAux 0 ys) ∧
    (renumberAux c ((BlockType.number, false) :: ys)
       = some (c + 1) :: renumberAux (c + 1) ys) := by
  refine ⟨by decide, renumberAux_append c xs ys, ?_, ?_, ?_⟩
  · rw [renumberAux_append]
    simp [renumberAux, counterAfter]
  · intro h
    simp [renumberAux, h]
  · simp [renumberAux]

/-- C8 (witness): instantiation: a visible Text block after two
Numbers resets the counter, and a hidden block inserted between two
Numbers leaves the second Number's index at 2. -/
theorem list_renumbering_witness :
    renumberAux 0 ((BlockType.text, false) :: [(BlockType.number, false)])
      = none :: renumberAux 0 [(BlockType.number, false)] ∧
    renumber [(BlockType.number, false), (BlockType.quote, true), (BlockType.number, false)]
      = [some 1, none, some 2] := by
  constructor
  · exact (list_renumbering 0 [] [(BlockType.number, false)] BlockType.text).2.2.2.1
      (by decide)
  · have h : renumber [(BlockType.number, false), (BlockType.quote, true), (BlockType.number, false)]
        = renumberAux 0 [(BlockType.number, false)] ++
          none :: renumberAux (counterAfter 0 [(BlockType.number, false)]) [(BlockType.number, false)] :=
      (list_renumbering 0 [(BlockType.number, false)]
        [(BlockType.number, false)] BlockType.quote).2.2.1
    rw [h]
    decide

/-- Looking up the key just set returns the new timer. -/
theorem lookupKey_setKey_self (k : String) (v : Nat) (m : List (String × Nat)) :
    lookupKey k (setKey k v m) = some v := by
  have h1 : (m.filter (fun e => e.1 ≠ k)).find? (fun e => e.1 = k) = none := by
    rw [List.find?_filter]
    exact List.find?_eq_none.mpr (fun x _ => by simp)
  simp [lookupKey, setKey, List.find?_append, h1]

/-- Dropping the entries of a different key does not disturb a
lookup. -/
theorem find?_filter_ne_key (m : List (String × Nat)) (k q : String)
    (h : q ≠ k) :
    (m.filter (fun e => e.1 ≠ k)).find? (fun e => e.1 = q)
      = m.find? (fun e => e.1 = q) := by
  induction m with
  | nil => rfl
  | cons a t ih =>
    by_cases hak : a.1 = k
    · have hfalse : decide (a.1 = q) = false :=
        decide_eq_false (by rw [hak]; exact fun hh => h hh.symm)
      rw [List.filter_cons_of_neg (by simp [hak])]
      conv_rhs => rw [List.find?]
      rw [hfalse]
      exact ih
    · rw [List.filter_cons_of_pos (by simp [hak])]
      by_cases haq : a.1 = q
      · have htrue : decide (a.1 = q) = true := by simp [haq]
        simp only [List.find?, htrue]
      · have hfalse : decide (a.1 = q) = false := decide_eq_false haq
        simp only [List.find?, hfalse]
        exact ih

/-- Setting one key does not disturb lookups of another key. -/
theorem lookupKey_setKey_other (k q : String) (v : Nat)
    (m : List (String × Nat)) (h : q ≠ k) :
    lookupKey q (setKey k v m) = lookupKey q m := by
  have h1 := find?_filter_ne_key m k q h
  have h2 : ([(k, v)] : List (String × Nat)).find? (fun e => e.1 = q) = none := by
    have hfalse : decide ((k, v).1 = q) = false :=
      decide_eq_false (fun hh => h hh.symm)
    simp only [List.find?, hfalse]
  simp only [lookupKey, setKey]
  rw [List.find?_append, h1, h2, Option.or_none]

/-- Deleting one key does not disturb lookups of another key. -/
theorem lookupKey_delKey_other (k q : String)
    (m : List (String × Nat)) (h : q ≠ k) :
    lookupKey q (delKey k m) = lookupKey q m := by
  simp only [lookupKey, delKey]
  rw [find?_filter_ne_key m k q h]

/-- Filtering preserves pairwise-distinct timers. -/
theorem distinctTimers_filter (l : List PendingEntry) (p : PendingEntry → Bool)
    (h : distinctTimers l = true) : distinctTimers (l.filter p) = true := by
  induction l with
  | nil => simp [distinctTimers]
  | cons e rest ih =>
    simp only [distinctTimers, Bool.and_eq_true] at h
    obtain ⟨h1, h2⟩ := h
    by_cases hp : p e = true
    · rw [List.filter_cons_of_pos hp]
      simp only [distinctTimers, Bool.and_eq_true]
      refine ⟨?_, ih h2⟩
      rw [List.all_eq_true] at h1 ⊢
      intro x hx
      exact h1 x (List.mem_of_mem_filter hx)
    · rw [List.filter_cons_of_neg (by simpa using hp)]
      exact ih h2

/-- Appending an entry with a fresh timer preserves distinctness. -/
theorem distinctTimers_append_fresh (l : List PendingEntry) (e0 : PendingEntry)
    (hd : distinctTimers l = true)
    (hf : ∀ e ∈ l, e.timerId ≠ e0.timerId) :
    distinctTimers (l ++ [e0]) = true := by
  induction l with
  | nil => simp [distinctTimers]
  | cons e rest ih =>
    simp only [distinctTimers, Bool.and_eq_true, List.all_eq_true] at hd
    obtain ⟨hd1, hd2⟩ := hd
    simp only [List.cons_append, distinctTimers, Bool.and_eq_true, List.all_eq_true]
    refine ⟨?_, ih hd2 (fun x hx => hf x (by simp [hx]))⟩
    intro x hx
    simp only [List.append_eq, List.mem_append] at hx
    cases hx with
    | inl hx => exact hd1 x hx
    | inr hx =>
      have hx2 : x = e0 := by simpa using hx
      subst hx2
      have := hf e (by simp)
      simp only [decide_eq_true_eq]
      exact fun hh => this hh.symm

/-- Under the invariant there is at most one armed entry per key. -/
theorem filter_key_length_le_one (db : List (String × Nat))
    (l : List PendingEntry) (k : String)
    (hlook : ∀ e ∈ l, lookupKey e.key db = some e.timerId)
    (hdis : distinctTimers l = true) :
    (l.filter (fun e => e.key = k)).length ≤ 1 := by
  induction l with
  | nil => simp
  | cons e rest ih =>
    simp only [distinctTimers, Bool.and_eq_true, List.all_eq_true] at hdis
    obtain ⟨hd1, hd2⟩ := hdis
    by_cases hk : e.key = k
    · rw [List.filter_cons_of_pos (by simpa using hk)]
      have hrest : rest.filter (fun e => e.key = k) = [] := by
        rw [List.filter_eq_nil_iff]
        intro x hx
        simp only [decide_eq_true_eq]
        intro hxk
        have h1 := hlook x (by simp [hx])
        have h2 := hlook e (by simp)
        rw [hxk] at h1
        rw [hk] at h2
        rw [h2] at h1
        have h3 : e.timerId = x.timerId := by simpa using h1
        have h4 := hd1 x hx
        simp only [decide_eq_true_eq] at h4
        exact h4 h3.symm
      rw [hrest]
      simp
    · rw [List.filter_cons_of_neg (by simpa using hk)]
      exact ih (fun x hx => hlook x (by simp [hx])) hd2

/-- `savePageStep` preserves the persistence invariant when the new
timer handle is fresh. -/
theorem psInv_savePageStep (s : PSState) (key : String) (pd : Page)
    (t q : Nat) (hinv : psInv s = true)
    (hfresh : ∀ e ∈ s.armed, e.timerId ≠ t) :
    psInv (savePageStep s key pd t q) = true := by
  simp only [psInv, Bool.and_eq_true, List.all_eq_true] at hinv
  obtain ⟨hlook, hdis⟩ := hinv
  have hlook2 : ∀ e ∈ s.armed, lookupKey e.key s.debounces = some e.timerId := by
    intro e he
    have := hlook e he
    simpa using this
  cases hlk : lookupKey key s.debounces with
  | none =>
    simp only [savePageStep, hlk, psInv, Bool.and_eq_true, List.all_eq_true]
    constructor
    · intro e he
      rw [List.mem_append] at he
      cases he with
      | inl hin =>
        have hl2 := hlook2 e hin
        by_cases hkk : e.key = key
        · rw [hkk, hlk] at hl2
          exact absurd hl2 (by simp)
        · rw [lookupKey_setKey_other key e.key t s.debounces hkk, hl2]
          simp
      | inr hin =>
        have he2 : e = ⟨t, key, pd, q⟩ := by simpa using hin
        subst he2
        simp [lookupKey_setKey_self]
    · exact distinctTimers_append_fresh s.armed ⟨t, key, pd, q⟩ hdis hfresh
  | some t0 =>
    simp only [savePageStep, hlk, psInv, Bool.and_eq_true, List.all_eq_true]
    constructor
    · intro e he
      rw [List.mem_append] at he
      cases he with
      | inl hin =>
        have hmem : e ∈ s.armed := List.mem_of_mem_filter hin
        have hne : e.timerId ≠ t0 := by
          have := (List.mem_filter.mp hin).2
          simpa using this
        have hl2 := hlook2 e hmem
        by_cases hkk : e.key = key
        · rw [hkk, hlk] at hl2
          have : e.timerId = t0 := by
            have := Option.some.inj hl2
            omega
          exact absurd this hne
        · rw [lookupKey_setKey_other key e.key t s.debounces hkk, hl2]
          simp
      | inr hin =>
        have he2 : e = ⟨t, key, pd, q⟩ := by simpa using hin
        subst he2
        simp [lookupKey_setKey_self]
    · exact distinctTimers_append_fresh _ ⟨t, key, pd, q⟩
        (distinctTimers_filter s.armed _ hdis)
        (fun e he => hfresh e (List.mem_of_mem_filter he))

/-- `fireStep` preserves the persistence invariant (the dispatch only
removes an armed timer; the `debounces` map is untouched until the
awaited write returns). -/
theorem psInv_fireStep (s : PSState) (t : Nat) (hinv : psInv s = true) :
    psInv (fireStep s t) = true := by
  simp only [psInv, Bool.and_eq_true, List.all_eq_true] at hinv
  obtain ⟨hlook, hdis⟩ := hinv
  cases hf : s.armed.find? (fun e => e.timerId = t) with
  | none =>
    simp only [fireStep, hf, psInv, Bool.and_eq_true, List.all_eq_true]
    exact ⟨fun e he => hlook e he, hdis⟩
  | some e0 =>
    simp only [fireStep, hf, psInv, Bool.and_eq_true, List.all_eq_true]
    exact ⟨fun e he => hlook e (List.mem_of_mem_filter he),
           distinctTimers_filter s.armed _ hdis⟩

/-- `completeErrStep` preserves the persistence invariant (the error
path resolves the promise without touching `debounces` or the armed
timers). -/
theorem psInv_completeErrStep (s : PSState) (t : Nat)
    (hinv : psInv s = true) : psInv (completeErrStep s t) = true := by
  cases hf : s.inflight.find? (fun e => e.timerId = t) with
  | none => simpa [completeErrStep, hf] using hinv
  | some e0 => simpa [completeErrStep, hf, psInv] using hinv

/-- C7: counterexample to "there is never more than one pending write
per page key at a time": in the stale-delete interleaving — timer 1
fires and its callback suspends on the awaited remote write, a second
save for the same key registers timer 2 (clearing the already-fired
timer 1 is a no-op), the resumed callback then runs
`debounces.delete`, erasing timer 2's registration, and a third save
finds no entry and arms timer 3 without cancelling timer 2 — two
timers are pending for the same key, and the three saves issue three
remote write calls instead of one. -/
theorem save_debounce_coalescing_counterexample :
    (pendingForKey (runEvents initialPSState staleDeleteTrace) "k").length = 2 ∧
    ¬ ((pendingForKey (runEvents initialPSState staleDeleteTrace) "k").length ≤ 1) ∧
    (runEvents initialPSState
        (staleDeleteTrace ++ [PSEvent.fire 2, PSEvent.fire 3])).writes
      = [("k", samplePageX), ("k", samplePageY), ("k", samplePageZ)] := by
  decide

/-- C7 (amended): saves for the same key are debounce-coalesced while
the key's timer is still pending: each new call cancels the pending
timeout and reschedules, so three such saves leave exactly one pending
write holding the final payload; firing it issues exactly one remote
write containing the final state, and its successful completion
resolves the promise and clears the key.  At most one pending write
per key is an invariant of scheduling, timer dispatch and failed
completion, but not of successful completion: the resumed callback's
`debounces.delete` runs only after the awaited write returns and can
erase a newer registration, making a second pending write for the same
key reachable (see the counterexample). -/
theorem save_debounce_coalescing_amended (k : String) (p1 p2 p3 : Page) :
    (pendingForKey (savePageStep (savePageStep (savePageStep initialPSState k p1 1 11) k p2 2 12) k p3 3 13) k
      = [⟨3, k, p3, 13⟩]) ∧
    ((savePageStep (savePageStep (savePageStep initialPSState k p1 1 11) k p2 2 12) k p3 3 13).writes = []) ∧
    ((fireStep (savePageStep (savePageStep (savePageStep initialPSState k p1 1 11) k p2 2 12) k p3 3 13) 3).writes
      = [(k, p3)]) ∧
    (pendingForKey (fireStep (savePageStep (savePageStep (savePageStep initialPSState k p1 1 11) k p2 2 12) k p3 3 13) 3) k
      = []) ∧
    ((completeOkStep (fireStep (savePageStep (savePageStep (savePageStep initialPSState k p1 1 11) k p2 2 12) k p3 3 13) 3) 3).resolvedPromises
      = [13]) ∧
    ((completeOkStep (fireStep (savePageStep (savePageStep (savePageStep initialPSState k p1 1 11) k p2 2 12) k p3 3 13) 3) 3).debounces
      = []) ∧
    (psInv initialPSState = true) ∧
    (∀ (s : PSState) (key : String) (pd : Page) (t q : Nat),
        psInv s = true → (∀ e ∈ s.armed, e.timerId ≠ t) →
        psInv (savePageStep s key pd t q) = true) ∧
    (∀ (s : PSState) (t : Nat), psInv s = true → psInv (fireStep s t) = true) ∧
    (∀ (s : PSState) (t : Nat), psInv s = true → psInv (completeErrStep s t) = true) ∧
    (∀ (s : PSState) (key : String), psInv s = true →
        (pendingForKey s key).length ≤ 1) := by
  refine ⟨?_, ?_, ?_, ?_, ?_, ?_, by decide, psInv_savePageStep, psInv_fireStep,
    psInv_completeErrStep, ?_⟩
  · simp [savePageStep, fireStep, lookupKey, setKey, delKey, pendingForKey,
      initialPSState]
  · simp [savePageStep, initialPSState]
  · simp [savePageStep, fireStep, lookupKey, setKey, delKey, pendingForKey,
      initialPSState]
  · simp [savePageStep, fireStep, lookupKey, setKey, delKey, pendingForKey,
      initialPSState]
  · simp [savePageStep, fireStep, completeOkStep, lookupKey, setKey, delKey,
      pendingForKey, initialPSState]
  · simp [savePageStep, fireStep, completeOkStep, lookupKey, setKey, delKey,
      pendingForKey, initialPSState]
  · intro s key hinv
    simp only [psInv, Bool.and_eq_true, List.all_eq_true] at hinv
    obtain ⟨hlook, hdis⟩ := hinv
    exact filter_key_length_le_one s.debounces s.armed key
      (fun e he => by simpa using hlook e he) hdis

/-- C7 (witness): instantiation of the invariant clause of the amended
theorem: a state with one scheduled write satisfies the invariant, and
so has at most one pending write for its key. -/
theorem save_debounce_coalescing_witness :
    (pendingForKey (savePageStep initialPSState "w" samplePageX 1 11) "w").length ≤ 1 :=
  (save_debounce_coalescing_amended "w" samplePageX samplePageX samplePageX).2.2.2.2.2.2.2.2.2.2
    (savePageStep initialPSState "w" samplePageX 1 11) "w" (by decide)

/-- If a promise is unresolved, can no longer be resolved by any armed
timer or in-flight callback, and no future call reuses its id, then no
event sequence ever resolves it. -/
theorem never_resolves (events : List PSEvent) (s : PSState) (pid : Nat)
    (h1 : pid ∉ s.resolvedPromises)
    (h2 : ∀ e ∈ s.armed, e.promiseId ≠ pid)
    (h2b : ∀ e ∈ s.inflight, e.promiseId ≠ pid)
    (h3 : ∀ ev ∈ events, avoidsPromise pid ev) :
    pid ∉ (runEvents s events).resolvedPromises := by
  induction events generalizing s with
  | nil => simpa [runEvents] using h1
  | cons ev rest ih =>
    cases ev with
    | save k pd t q =>
      simp only [runEvents]
      apply ih
      · simpa [savePageStep] using h1
      · intro e he
        simp only [savePageStep, List.mem_append] at he
        cases he with
        | inl hin =>
          cases hlk : lookupKey k s.debounces with
          | none =>
            rw [hlk] at hin
            exact h2 e hin
          | some t0 =>
            rw [hlk] at hin
            exact h2 e (List.mem_of_mem_filter hin)
        | inr hin =>
          have he2 : e = ⟨t, k, pd, q⟩ := by simpa using hin
          subst he2
          have := h3 (PSEvent.save k pd t q) (by simp)
          simpa [avoidsPromise] using this
      · intro e he
        simp only [savePageStep] at he
        exact h2b e he
      · intro e he
        exact h3 e (by simp [he])
    | fire t =>
      simp only [runEvents]
      apply ih
      · cases hf : s.armed.find? (fun e => e.timerId = t) with
        | none => simpa [fireStep, hf] using h1
        | some e0 => simpa [fireStep, hf] using h1
      · intro e he
        cases hf : s.armed.find? (fun e => e.timerId = t) with
        | none =>
          rw [fireStep] at he
          rw [hf] at he
          exact h2 e he
        | some e0 =>
          rw [fireStep] at he
          rw [hf] at he
          exact h2 e (List.mem_of_mem_filter he)
      · intro e he
        cases hf : s.armed.find? (fun e => e.timerId = t) with
        | none =>
          rw [fireStep] at he
          rw [hf] at he
          exact h2b e he
        | some e0 =>
          have he0mem : e0 ∈ s.armed := List.mem_of_find?_eq_some hf
          rw [fireStep] at he
          rw [hf] at he
          simp only [List.mem_append] at he
          cases he with
          | inl hin => exact h2b e hin
          | inr hin =>
            have he2 : e = ⟨e0.timerId, e0.key, e0.promiseId⟩ := by simpa using hin
            subst he2
            exact h2 e0 he0mem
      · intro e he
        exact h3 e (by simp [he])
    | completeOk t =>
      simp only [runEvents]
      apply ih
      · cases hf : s.inflight.find? (fun e => e.timerId = t) with
        | none => simpa [completeOkStep, hf] using h1
        | some e0 =>
          have he0mem : e0 ∈ s.inflight := List.mem_of_find?_eq_some hf
          have hne := h2b e0 he0mem
          simp only [completeOkStep, hf, List.mem_append]
          intro hcon
          cases hcon with
          | inl hcon => exact h1 hcon
          | inr hcon =>
            have heq : pid = e0.promiseId := by simpa using hcon
            exact hne heq.symm
      · intro e he
        cases hf : s.inflight.find? (fun e => e.timerId = t) with
        | none =>
          rw [completeOkStep] at he
          rw [hf] at he
          exact h2 e he
        | some e0 =>
          rw [completeOkStep] at he
          rw [hf] at he
          exact h2 e he
      · intro e he
        cases hf : s.inflight.find? (fun e => e.timerId = t) with
        | none =>
          rw [completeOkStep] at he
          rw [hf] at he
          exact h2b e he
        | some e0 =>
          rw [completeOkStep] at he
          rw [hf] at he
          exact h2b e (List.mem_of_mem_filter he)
      · intro e he
        exact h3 e (by simp [he])
    | completeErr t =>
      simp only [runEvents]
      apply ih
      · cases hf : s.inflight.find? (fun e => e.timerId = t) with
        | none => simpa [completeErrStep, hf] using h1
        | some e0 =>
          have he0mem : e0 ∈ s.inflight := List.mem_of_find?_eq_some hf
          have hne := h2b e0 he0mem
          simp only [completeErrStep, hf, List.mem_append]
          intro hcon
          cases hcon with
          | inl hcon => exact h1 hcon
          | inr hcon =>
            have heq : pid = e0.promiseId := by simpa using hcon
            exact hne heq.symm
      · intro e he
        cases hf : s.inflight.find? (fun e => e.timerId = t) with
        | none =>
          rw [completeErrStep] at he
          rw [hf] at he
          exact h2 e he
        | some e0 =>
          rw [completeErrStep] at he
          rw [hf] at he
          exact h2 e he
      · intro e he
        cases hf : s.inflight.find? (fun e => e.timerId = t) with
        | none =>
          rw [completeErrStep] at he
          rw [hf] at he
          exact h2b e he
        | some e0 =>
          rw [completeErrStep] at he
          rw [hf] at he
          exact h2b e (List.mem_of_mem_filter he)
      · intro e he
        exact h3 e (by simp [he])

/-- C10: when a second `savePage` call for the same key arrives before
the first call's debounce timer fires, the timeout is cleared without
ever starting its callback, so the `resolve` of the Promise returned
by the first call (promise 11, timer 1) is unreachable: promise 11 is
absent from the resolved set after any sequence of further events —
timer firings, successful or failed write completions, and fresh saves
(`savePage` has no reject path at all, so unresolved means never
settled); meanwhile the superseding call (promise 12, timer 2) is the
only pending write for the key. -/
theorem superseded_save_never_settles (k : String) (p1 p2 : Page)
    (events : List PSEvent)
    (hfresh : ∀ ev ∈ events, avoidsPromise 11 ev) :
    11 ∉ (runEvents (supersededState k p1 p2) events).resolvedPromises ∧
    (supersededState k p1 p2).resolvedPromises = [] ∧
    pendingForKey (supersededState k p1 p2) k = [⟨2, k, p2, 12⟩] := by
  refine ⟨?_, ?_, ?_⟩
  · apply never_resolves events _ 11 ?_ ?_ ?_ hfresh
    · simp [supersededState, savePageStep, initialPSState]
    · intro e he
      simp only [supersededState, savePageStep, initialPSState, lookupKey,
        setKey] at he
      simp at he
      subst he
      simp
    · intro e he
      simp [supersededState, savePageStep, initialPSState] at he
  · simp [supersededState, savePageStep, initialPSState]
  · simp [supersededState, savePageStep, initialPSState, lookupKey, setKey,
      pendingForKey]

/-- C10 (witness): instantiation: after two back-to-back saves of the
same page, firing both timer handles and completing the remote write
resolves only the second call's promise — promise 11 stays
unresolved. -/
theorem superseded_save_never_settles_witness :
    11 ∉ (runEvents (supersededState "w" samplePageX samplePageY)
      [PSEvent.fire 1, PSEvent.fire 2, PSEvent.completeOk 2]).resolvedPromises :=
  (superseded_save_never_settles "w" samplePageX samplePageY
    [PSEvent.fire 1, PSEvent.fire 2, PSEvent.completeOk 2]
    (by intro ev hev; simp only [List.mem_cons, List.not_mem_nil, or_false] at hev; rcases hev with h | h | h <;> subst h <;> exact trivial)).1

end Compile
